import Mathlib

/-!
Verification development for the epigrafia_front audio pipeline.

Shallow embedding of the browser audio-processing code:
* `src/src/utils/audioProcessing.js` — length normalization
  (`audioBufferToFloat32`), frame segmentation, simplified spectral
  feature extraction with first/second band differences, frame-count
  padding/truncation (`extractMFCC`), and per-column standardization.
* the recording module — WAV container writing (`float32ToWav`).
* the model loader module — `loadModels` state machine.

Audio samples are modelled as exact rationals (`ℚ`); the tensor
standardization step, which involves a square root, is modelled over `ℝ`.
Machine-float rounding is out of scope.
-/

/- ### Configuration (CONFIG object, audioProcessing.js lines 9-17) -/

def sampleRate : ℕ := 16000

def duration : ℕ := 3

def nMfcc : ℕ := 40

def fftSize : ℕ := 2048

def hopLength : ℕ := 512

def nFeatures : ℕ := 120

/-- `CONFIG.sampleRate * CONFIG.duration`, the normalized signal length. -/
def targetLength : ℕ := sampleRate * duration

/-- `targetFrames = 94` (audioProcessing.js line 206). -/
def targetFrames : ℕ := 94

/- ### Length normalization (audioBufferToFloat32, lines 135-155) -/

/-- Embedding of `audioBufferToFloat32`: truncate with `slice(0, targetLength)`
when longer than the target, zero-pad at the end when shorter, identity when
the length matches exactly. -/
def audioBufferToFloat32 (channelData : List ℚ) : List ℚ :=
  if targetLength < channelData.length then
    channelData.take targetLength
  else if channelData.length < targetLength then
    channelData ++ List.replicate (targetLength - channelData.length) 0
  else
    channelData

/- ### Frame segmentation (extractMFCC, lines 174-180) -/

/-- `numFrames = Math.floor((audioData.length - CONFIG.fftSize) / CONFIG.hopLength) + 1`
computed in JavaScript number arithmetic: floor division of a possibly
negative numerator, hence `Int.fdiv`. -/
def numFramesInt (len : ℕ) : ℤ :=
  ((len : ℤ) - (fftSize : ℤ)).fdiv (hopLength : ℤ) + 1

/-- The number of iterations of the frame loop `for (let i = 0; i < numFrames; i++)`:
zero when `numFrames` is negative. -/
def numFrames (len : ℕ) : ℕ := (numFramesInt len).toNat

/-- Embedding of `audioData.slice(frameStart, frameEnd)` with
`frameStart = i * hopLength` and
`frameEnd = Math.min(frameStart + fftSize, audioData.length)` (lines 178-180). -/
def sliceFrame (audioData : List ℚ) (i : ℕ) : List ℚ :=
  let frameStart := i * hopLength
  let frameEnd := min (frameStart + fftSize) audioData.length
  (audioData.drop frameStart).take (frameEnd - frameStart)

/-- The list of frames produced by the loop on lines 177-203. -/
def frames (audioData : List ℚ) : List (List ℚ) :=
  (List.range (numFrames audioData.length)).map (sliceFrame audioData)

/- ### Per-frame band features (extractMFCC, lines 184-200) -/

/-- `binSize = Math.floor(frame.length / CONFIG.nMfcc)` (line 189). -/
def binSize (frame : List ℚ) : ℕ := frame.length / nMfcc

/-- Band energy written to `frameFeatures[j]` (lines 188-197): sum of absolute
amplitudes over `[j*binSize, min(j*binSize + binSize, frame.length))`,
divided by `binSize`. -/
def bandEnergy (frame : List ℚ) (j : ℕ) : ℚ :=
  let b := binSize frame
  let s := j * b
  let e := min (s + b) frame.length
  (∑ k in Finset.Ico s e, |frame.getD k 0|) / (b : ℚ)

/-- First difference written to `frameFeatures[j + nMfcc]` (line 198):
`j > 0 ? frameFeatures[j] - frameFeatures[j-1] : 0`, a band-to-band
difference within the same frame. -/
def delta1 (frame : List ℚ) (j : ℕ) : ℚ :=
  if j = 0 then 0 else bandEnergy frame j - bandEnergy frame (j - 1)

/-- Second difference written to `frameFeatures[j + 2*nMfcc]` (line 199):
the same band-to-band difference applied to the first-difference values. -/
def delta2 (frame : List ℚ) (j : ℕ) : ℚ :=
  if j = 0 then 0 else delta1 frame j - delta1 frame (j - 1)

/-- The assembled per-frame feature vector `frameFeatures`
(a `Float32Array(CONFIG.nFeatures)` whose indices `j`, `j + 40`, `j + 80`
are written for `j = 0..39`): energies, then first differences, then second
differences. -/
def frameFeatures (frame : List ℚ) : List ℚ :=
  (List.range nMfcc).map (bandEnergy frame) ++
    (List.range nMfcc).map (delta1 frame) ++
    (List.range nMfcc).map (delta2 frame)

/-- The `features` array right after the frame loop (line 202). -/
def rawFeatures (audioData : List ℚ) : List (List ℚ) :=
  (frames audioData).map frameFeatures

/-- A zero-filled feature vector `new Array(CONFIG.nFeatures).fill(0)`. -/
def zeroVector : List ℚ := List.replicate nFeatures 0

/-- Embedding of lines 206-212: pad with zero vectors while shorter than
`targetFrames`, then truncate to `targetFrames`. -/
def padTruncate (features : List (List ℚ)) : List (List ℚ) :=
  (features ++ List.replicate (targetFrames - features.length) zeroVector).take
    targetFrames

/-- The feature sequence produced by `extractMFCC` just before the tensor is
built and standardized (lines 170-212): length normalization, segmentation,
per-frame features, pad/truncate to `targetFrames`. -/
def extractMFCCFeatures (channelData : List ℚ) : List (List ℚ) :=
  padTruncate (rawFeatures (audioBufferToFloat32 channelData))

/- ### Basic shape lemmas -/

theorem audioBufferToFloat32_length (c : List ℚ) :
    (audioBufferToFloat32 c).length = targetLength := by
  unfold audioBufferToFloat32
  split
  · simp only [List.length_take]
    omega
  · split
    · simp only [List.length_append, List.length_replicate]
      omega
    · omega

theorem numFramesInt_target : numFramesInt targetLength = 90 := by decide

theorem frames_length (s : List ℚ) :
    (frames s).length = numFrames s.length := by
  simp [frames]

theorem frameFeatures_length (frame : List ℚ) :
    (frameFeatures frame).length = nFeatures := by
  simp [frameFeatures, nFeatures, nMfcc]

theorem rawFeatures_length (s : List ℚ) :
    (rawFeatures s).length = numFrames s.length := by
  simp [rawFeatures, frames_length]

theorem getD_range_map (f : ℕ → ℚ) (n j : ℕ) (h : j < n) :
    ((List.range n).map f).getD j 0 = f j := by
  rw [List.getD_eq_getElem _ _ (by simpa using h)]
  simp

theorem getD_range_map_list (f : ℕ → List ℚ) (n j : ℕ) (h : j < n) :
    ((List.range n).map f).getD j [] = f j := by
  rw [List.getD_eq_getElem _ _ (by simpa using h)]
  simp

theorem getD_replicate_zero (m i : ℕ) : (List.replicate m (0:ℚ)).getD i 0 = 0 := by
  by_cases h : i < m
  · rw [List.getD_eq_getElem _ _ (by simpa using h)]
    simp
  · rw [List.getD_eq_default _ _ (by simpa using Nat.le_of_not_lt h)]

theorem padTruncate_of_le (fs : List (List ℚ)) (h : fs.length ≤ targetFrames) :
    padTruncate fs = fs ++ List.replicate (targetFrames - fs.length) zeroVector := by
  unfold padTruncate
  apply List.take_of_length_le
  simp only [List.length_append, List.length_replicate]
  omega

theorem padTruncate_of_ge (fs : List (List ℚ)) (h : targetFrames ≤ fs.length) :
    padTruncate fs = fs.take targetFrames := by
  unfold padTruncate
  have h0 : targetFrames - fs.length = 0 := by omega
  rw [h0]
  simp

theorem padTruncate_length (fs : List (List ℚ)) :
    (padTruncate fs).length = targetFrames := by
  simp only [padTruncate, List.length_take, List.length_append, List.length_replicate]
  omega

/-- **C2.** `audioBufferToFloat32` always returns exactly
`sampleRate × duration = 48000` samples: longer inputs are truncated (the
first `targetLength` samples are kept), shorter inputs are zero-padded at the
end (every position at or past the input length reads zero), and an input of
exactly the target length is returned unchanged. -/
theorem audioBufferToFloat32_spec (c : List ℚ) :
    (audioBufferToFloat32 c).length = targetLength ∧
    (targetLength ≤ c.length → audioBufferToFloat32 c = c.take targetLength) ∧
    (c.length ≤ targetLength →
      audioBufferToFloat32 c = c ++ List.replicate (targetLength - c.length) 0) ∧
    (c.length = targetLength → audioBufferToFloat32 c = c) ∧
    (∀ k, c.length ≤ k → (audioBufferToFloat32 c).getD k 0 = 0) := by
  refine ⟨audioBufferToFloat32_length c, ?_, ?_, ?_, ?_⟩
  · intro h
    unfold audioBufferToFloat32
    split
    · rfl
    · split
      · omega
      · exact (List.take_of_length_le (by omega)).symm
  · intro h
    unfold audioBufferToFloat32
    split
    · omega
    · split
      · rfl
      · have he : targetLength - c.length = 0 := by omega
        rw [he]
        simp
  · intro h
    unfold audioBufferToFloat32
    split
    · omega
    · split
      · omega
      · rfl
  · intro k hk
    unfold audioBufferToFloat32
    split
    · rw [List.getD_eq_default]
      simp only [List.length_take]
      omega
    · split
      · rw [List.getD_append_right _ _ _ _ (by omega)]
        exact getD_replicate_zero _ _
      · rw [List.getD_eq_default _ _ hk]

theorem audioBufferToFloat32_spec_witness :
    (audioBufferToFloat32 []).length = targetLength ∧
    audioBufferToFloat32 [] =
      [] ++ List.replicate (targetLength - ([] : List ℚ).length) 0 :=
  ⟨(audioBufferToFloat32_spec []).1,
    (audioBufferToFloat32_spec []).2.2.1 (by simp)⟩

/-- **C1.** The feature sequence produced by `extractMFCC` always has exactly
`targetFrames = 94` entries, each of length `nFeatures = 120 = 3 × nMfcc`;
when the assembled frame list is shorter than 94 zero vectors are appended,
and when it is longer the trailing frames are dropped. -/
theorem extractMFCC_shape (c : List ℚ) :
    nFeatures = 3 * nMfcc ∧
    (extractMFCCFeatures c).length = targetFrames ∧
    (∀ row ∈ extractMFCCFeatures c, row.length = nFeatures) ∧
    (∀ fs : List (List ℚ), fs.length ≤ targetFrames →
      padTruncate fs = fs ++ List.replicate (targetFrames - fs.length) zeroVector) ∧
    (∀ fs : List (List ℚ), targetFrames ≤ fs.length →
      padTruncate fs = fs.take targetFrames) := by
  refine ⟨by decide, padTruncate_length _, ?_, padTruncate_of_le, padTruncate_of_ge⟩
  intro row hrow
  unfold extractMFCCFeatures padTruncate at hrow
  rcases List.mem_append.mp (List.take_subset _ _ hrow) with h | h
  · rcases List.mem_map.mp h with ⟨f, _, rfl⟩
    exact frameFeatures_length f
  · rw [List.eq_of_mem_replicate h]
    simp [zeroVector]

theorem extractMFCC_shape_witness :
    (extractMFCCFeatures []).length = targetFrames ∧
    padTruncate [] = [] ++ List.replicate (targetFrames - 0) zeroVector :=
  ⟨(extractMFCC_shape []).2.1,
    (extractMFCC_shape []).2.2.2.1 [] (by simp)⟩

/-- **C10.** Under the fixed configuration the normalized signal always has
48000 samples, so the natural frame count is exactly 90, strictly below
`targetFrames = 94`; the truncation branch is never taken, padding always
occurs, and the last 4 of the 94 feature vectors are zero vectors. -/
theorem extractMFCC_padding (c : List ℚ) :
    numFrames (audioBufferToFloat32 c).length = 90 ∧
    90 < targetFrames ∧
    (rawFeatures (audioBufferToFloat32 c)).length = 90 ∧
    extractMFCCFeatures c =
      rawFeatures (audioBufferToFloat32 c) ++ List.replicate 4 zeroVector ∧
    (extractMFCCFeatures c).drop 90 = List.replicate 4 zeroVector := by
  have hn : numFrames (audioBufferToFloat32 c).length = 90 := by
    rw [audioBufferToFloat32_length]
    rw [numFrames, numFramesInt_target]
    rfl
  have hraw : (rawFeatures (audioBufferToFloat32 c)).length = 90 := by
    rw [rawFeatures_length, audioBufferToFloat32_length, numFrames, numFramesInt_target]
    rfl
  have hpad : extractMFCCFeatures c =
      rawFeatures (audioBufferToFloat32 c) ++ List.replicate 4 zeroVector := by
    unfold extractMFCCFeatures
    rw [padTruncate_of_le _ (by rw [hraw]; decide), hraw]
    rfl
  refine ⟨hn, by decide, hraw, hpad, ?_⟩
  rw [hpad]
  have := List.drop_left (rawFeatures (audioBufferToFloat32 c))
    (List.replicate 4 zeroVector)
  rwa [hraw] at this

theorem fdiv_hop_negSucc (m : ℕ) :
    (Int.negSucc m).fdiv ((hopLength : ℕ) : ℤ) = Int.negSucc (m / 512) := rfl

/-- **C5.** Segmentation: the number of frames equals
`floor((len - fftSize) / hopLength) + 1` clamped to ≥ 0, frame `i` is the
slice starting at sample `i × hopLength` (clipped at the signal end), and a
signal shorter than `fftSize` yields zero frames. -/
theorem segmentFrames_spec (s : List ℚ) :
    ((frames s).length : ℤ) =
      max (((s.length : ℤ) - (fftSize : ℤ)).fdiv (hopLength : ℤ) + 1) 0 ∧
    (∀ i, i < (frames s).length →
      (frames s).getD i [] = (s.drop (i * hopLength)).take
        (min (i * hopLength + fftSize) s.length - i * hopLength)) ∧
    (s.length < fftSize → frames s = []) := by
  refine ⟨?_, ?_, ?_⟩
  · rw [frames_length, numFrames, numFramesInt, Int.toNat_eq_max]
  · intro i hi
    rw [frames_length] at hi
    unfold frames
    rw [getD_range_map_list _ _ _ hi]
    rfl
  · intro hshort
    have hneg : (s.length : ℤ) - (fftSize : ℤ) = Int.negSucc (2047 - s.length) := by
      rw [Int.negSucc_eq]
      have : s.length ≤ 2047 := by
        have : fftSize = 2048 := rfl
        omega
      have hf : ((fftSize : ℕ) : ℤ) = 2048 := rfl
      omega
    have hlen : (frames s).length = 0 := by
      rw [frames_length, numFrames, numFramesInt, hneg, fdiv_hop_negSucc]
      have : Int.negSucc ((2047 - s.length) / 512) + 1 ≤ 0 := by
        rw [Int.negSucc_eq]
        omega
      exact Int.toNat_of_nonpos this
    exact List.eq_nil_of_length_eq_zero hlen

theorem segmentFrames_spec_witness :
    ((frames ([] : List ℚ)).length : ℤ) =
      max ((((([] : List ℚ).length : ℤ)) - (fftSize : ℤ)).fdiv (hopLength : ℤ) + 1) 0 ∧
    frames ([] : List ℚ) = [] :=
  ⟨(segmentFrames_spec []).1, (segmentFrames_spec []).2.2 (by decide)⟩

theorem frameFeatures_getD_energy (frame : List ℚ) (j : ℕ) (hj : j < nMfcc) :
    (frameFeatures frame).getD j 0 = bandEnergy frame j := by
  unfold frameFeatures
  rw [List.getD_append _ _ _ _ (by simp; omega),
    List.getD_append _ _ _ _ (by simpa using hj)]
  exact getD_range_map _ _ _ hj

theorem frameFeatures_getD_delta1 (frame : List ℚ) (j : ℕ) (hj : j < nMfcc) :
    (frameFeatures frame).getD (j + nMfcc) 0 = delta1 frame j := by
  unfold frameFeatures
  rw [List.getD_append _ _ _ _ (by simp; omega),
    List.getD_append_right _ _ _ _ (by simp)]
  have h1 : j + nMfcc - ((List.range nMfcc).map (bandEnergy frame)).length = j := by
    simp
  rw [h1]
  exact getD_range_map _ _ _ hj

theorem frameFeatures_getD_delta2 (frame : List ℚ) (j : ℕ) (hj : j < nMfcc) :
    (frameFeatures frame).getD (j + 2 * nMfcc) 0 = delta2 frame j := by
  unfold frameFeatures
  rw [List.getD_append_right _ _ _ _ (by simp; omega)]
  have h1 : j + 2 * nMfcc -
      ((List.range nMfcc).map (bandEnergy frame) ++
        (List.range nMfcc).map (delta1 frame)).length = j := by
    simp
    omega
  rw [h1]
  exact getD_range_map _ _ _ hj

/-- **C4.** Each per-frame feature vector is ordered as
`[energy_0..energy_39, d1_0..d1_39, d2_0..d2_39]`; the first difference is
`energy[j] - energy[j-1]` for `j > 0` and `0` for `j = 0` (a band-to-band
difference within one frame), and the second difference is the same
band-to-band difference applied to the first-difference values. -/
theorem frameFeatures_ordering (frame : List ℚ) (j : ℕ) (hj : j < nMfcc) :
    (frameFeatures frame).length = nFeatures ∧
    (frameFeatures frame).getD j 0 = bandEnergy frame j ∧
    (frameFeatures frame).getD (j + nMfcc) 0 = delta1 frame j ∧
    (frameFeatures frame).getD (j + 2 * nMfcc) 0 = delta2 frame j ∧
    delta1 frame 0 = 0 ∧
    (0 < j → delta1 frame j = bandEnergy frame j - bandEnergy frame (j - 1)) ∧
    delta2 frame 0 = 0 ∧
    (0 < j → delta2 frame j = delta1 frame j - delta1 frame (j - 1)) := by
  refine ⟨frameFeatures_length frame, frameFeatures_getD_energy frame j hj,
    frameFeatures_getD_delta1 frame j hj, frameFeatures_getD_delta2 frame j hj,
    by simp [delta1], ?_, by simp [delta2], ?_⟩
  · intro h
    rw [delta1, if_neg (by omega)]
  · intro h
    rw [delta2, if_neg (by omega)]

theorem frameFeatures_ordering_witness :
    (frameFeatures []).length = nFeatures ∧
    (frameFeatures []).getD 1 0 = bandEnergy [] 1 ∧
    (frameFeatures []).getD (1 + nMfcc) 0 = delta1 [] 1 ∧
    (frameFeatures []).getD (1 + 2 * nMfcc) 0 = delta2 [] 1 ∧
    delta1 [] 0 = 0 ∧
    (0 < 1 → delta1 [] 1 = bandEnergy [] 1 - bandEnergy [] 0) ∧
    delta2 [] 0 = 0 ∧
    (0 < 1 → delta2 [] 1 = delta1 [] 1 - delta1 [] 0) :=
  frameFeatures_ordering [] 1 (by decide)

theorem pipelineFrame_length (c : List ℚ) (i : ℕ) (hi : i < 90) :
    (sliceFrame (audioBufferToFloat32 c) i).length = fftSize := by
  unfold sliceFrame
  simp only [List.length_take, List.length_drop, audioBufferToFloat32_length]
  have h1 : fftSize = 2048 := rfl
  have h2 : hopLength = 512 := rfl
  have h3 : targetLength = 48000 := rfl
  rw [h1, h2, h3]
  omega

/-- **C3 (amended).** For every frame of the pipeline (always of length
`fftSize = 2048`, so `binSize = 51`), the band energy of band `j` is the mean
absolute amplitude of the 51 samples of bin `[j·51, j·51 + 51)`: the divisor
is `binSize` and every bin is full, so the value is a true mean; but the
final bin ends at sample 2040, so the 8 remainder samples `2040..2047`
belong to no bin — the clamped end index never extends the final bin. -/
theorem bandEnergy_mean_amended (c : List ℚ) (i j : ℕ) (hi : i < 90) (hj : j < nMfcc) :
    (sliceFrame (audioBufferToFloat32 c) i).length = fftSize ∧
    binSize (sliceFrame (audioBufferToFloat32 c) i) = 51 ∧
    bandEnergy (sliceFrame (audioBufferToFloat32 c) i) j =
      (∑ k in Finset.Ico (j * 51) (j * 51 + 51),
        |(sliceFrame (audioBufferToFloat32 c) i).getD k 0|) / 51 ∧
    j * 51 + 51 ≤ 2040 ∧
    2040 < fftSize := by
  have hlen := pipelineFrame_length c i hi
  have hbin : binSize (sliceFrame (audioBufferToFloat32 c) i) = 51 := by
    rw [binSize, hlen]
    decide
  have hj40 : j < 40 := by
    have : nMfcc = 40 := rfl
    omega
  refine ⟨hlen, hbin, ?_, by omega, by decide⟩
  simp only [bandEnergy]
  rw [hbin, hlen]
  have hmin : min (j * 51 + 51) fftSize = j * 51 + 51 := by
    apply min_eq_left
    have : fftSize = 2048 := rfl
    omega
  rw [hmin]
  norm_num

theorem bandEnergy_mean_amended_witness :
    (sliceFrame (audioBufferToFloat32 []) 0).length = fftSize ∧
    binSize (sliceFrame (audioBufferToFloat32 []) 0) = 51 ∧
    bandEnergy (sliceFrame (audioBufferToFloat32 []) 0) 0 =
      (∑ k in Finset.Ico (0 * 51) (0 * 51 + 51),
        |(sliceFrame (audioBufferToFloat32 []) 0).getD k 0|) / 51 ∧
    0 * 51 + 51 ≤ 2040 ∧
    2040 < fftSize :=
  bandEnergy_mean_amended [] 0 0 (by decide) (by decide)

/-- Modelled from the spec claim wording, not from the code: partition the
frame into `nMfcc` bins of width `binWidth = floor(frameLength / nMfcc)`
where "the final bin absorbs any remainder samples via a clamped end index",
and take the mean absolute amplitude of the samples of the bin. -/
def bandEnergyClaimed (frame : List ℚ) (j : ℕ) : ℚ :=
  let b := binSize frame
  let s := j * b
  let e := if j = nMfcc - 1 then frame.length else min (s + b) frame.length
  (∑ k in Finset.Ico s e, |frame.getD k 0|) / ((e - s : ℕ) : ℚ)

/-- A 48000-sample input whose first frame is `testFrame`: sample 2047 is 1,
all other samples are 0. -/
def testInput : List ℚ := List.replicate 2047 0 ++ 1 :: List.replicate 45952 0

/-- 2047 zero samples followed by a single sample of amplitude 1. -/
def testFrame : List ℚ := List.replicate 2047 0 ++ [1]

theorem testFrame_length : testFrame.length = 2048 := by
  rw [testFrame, List.length_append, List.length_replicate]
  rfl

theorem testFrame_getD_lt (k : ℕ) (hk : k < 2047) : testFrame.getD k 0 = 0 := by
  unfold testFrame
  rw [List.getD_append _ _ _ _ (by rw [List.length_replicate]; exact hk)]
  exact getD_replicate_zero _ _

theorem testFrame_getD_last : testFrame.getD 2047 0 = 1 := by
  unfold testFrame
  rw [List.getD_append_right _ _ _ _ (by rw [List.length_replicate])]
  rw [List.length_replicate]
  rfl

theorem bandEnergy_testFrame : bandEnergy testFrame 39 = 0 := by
  have hbin : binSize testFrame = 51 := by
    rw [binSize, testFrame_length]
    decide
  simp only [bandEnergy]
  rw [hbin, testFrame_length]
  have hmin : min (39 * 51 + 51) 2048 = 2040 := by decide
  rw [hmin]
  have hsum : (∑ k in Finset.Ico (39 * 51) 2040, |testFrame.getD k 0|) = 0 := by
    apply Finset.sum_eq_zero
    intro k hk
    rw [Finset.mem_Ico] at hk
    rw [testFrame_getD_lt k (by omega)]
    exact abs_zero
  rw [hsum]
  exact zero_div _

theorem sum_absAmp_full : (∑ k in Finset.Ico 1989 2048, |testFrame.getD k 0|) = 1 := by
  have h2048 : (2048 : ℕ) = 2047 + 1 := by norm_num
  rw [h2048, Finset.sum_Ico_succ_top (by norm_num)]
  have hzero : (∑ k in Finset.Ico 1989 2047, |testFrame.getD k 0|) = 0 := by
    apply Finset.sum_eq_zero
    intro k hk
    rw [Finset.mem_Ico] at hk
    rw [testFrame_getD_lt k (by omega)]
    exact abs_zero
  rw [hzero, testFrame_getD_last]
  norm_num

theorem bandEnergyClaimed_testFrame : bandEnergyClaimed testFrame 39 = 1 / 59 := by
  have hbin : binSize testFrame = 51 := by
    rw [binSize, testFrame_length]
    decide
  have hif : (39 = nMfcc - 1) := by decide
  simp only [bandEnergyClaimed]
  rw [hbin, testFrame_length, if_pos hif]
  rw [show (39 * 51 : ℕ) = 1989 by norm_num]
  rw [sum_absAmp_full]
  norm_num

/-- **C3 counterexample.** The claim fails on the first frame of a concrete
48000-sample input whose sample 2047 is 1: the code computes band energy 0
for the final band (it sums bin `[1989, 2040)` only, dropping the remainder
samples `2040..2047`), while the claimed partition — final bin absorbing the
remainder, `[1989, 2048)` — has mean absolute amplitude `1/59`. -/
theorem bandEnergy_remainder_counterexample :
    sliceFrame (audioBufferToFloat32 testInput) 0 = testFrame ∧
    bandEnergy testFrame 39 = 0 ∧
    bandEnergyClaimed testFrame 39 = 1 / 59 ∧
    bandEnergy testFrame 39 ≠ bandEnergyClaimed testFrame 39 := by
  have hsplit : testInput = testFrame ++ List.replicate 45952 0 := by
    rw [testInput, testFrame, List.append_assoc]
    rfl
  have hL : (testFrame ++ List.replicate 45952 (0:ℚ)).length = 48000 := by
    rw [List.length_append, testFrame_length, List.length_replicate]
  have hlen : testInput.length = targetLength := by
    rw [hsplit, hL]
    rfl
  have hid : audioBufferToFloat32 testInput = testInput := by
    unfold audioBufferToFloat32
    rw [hlen]
    simp
  refine ⟨?_, bandEnergy_testFrame, bandEnergyClaimed_testFrame, ?_⟩
  · rw [hid, hsplit]
    unfold sliceFrame
    rw [hL]
    simp only [Nat.zero_mul, Nat.zero_add, Nat.sub_zero, List.drop_zero]
    rw [show fftSize ⊓ 48000 = 2048 by rfl]
    have := List.take_left testFrame (List.replicate 45952 (0:ℚ))
    rwa [testFrame_length] at this
  · rw [bandEnergy_testFrame, bandEnergyClaimed_testFrame]
    norm_num

/- ### Per-column standardization (extractMFCC, lines 217-220)

`tensor.mean([1], true)` and `tf.moments(tensor, [1], true).variance` reduce
over the time axis, i.e. they act independently on each feature column of
the `[94, 120]` feature sequence; `normalized = tensor.sub(mean).div(std.add(1e-8))`.
Modelled over `ℝ` (the square root forces the real field). -/

/-- Feature column `j` of a feature sequence: the values of feature `j`
across the time axis. -/
noncomputable def featureColumn (seq : List (List ℝ)) (j : ℕ) : List ℝ :=
  seq.map fun row => row.getD j 0

/-- Mean of a column (`tensor.mean([1], true)`). -/
noncomputable def colMean (xs : List ℝ) : ℝ := xs.sum / xs.length

/-- Population variance of a column (`tf.moments(tensor, [1], true).variance`). -/
noncomputable def colVariance (xs : List ℝ) : ℝ :=
  ((xs.map fun x => (x - colMean xs) ^ 2).sum) / xs.length

/-- Standard deviation of a column (`.variance.sqrt()`). -/
noncomputable def colStd (xs : List ℝ) : ℝ := Real.sqrt (colVariance xs)

/-- The epsilon added to the divisor: `std.add(1e-8)`. -/
noncomputable def tfEpsilon : ℝ := 1 / 10 ^ 8

/-- Column standardization with an explicit epsilon:
`(x - mean) / (std + eps)` applied to each entry of the column. -/
noncomputable def normalizeColWith (eps : ℝ) (xs : List ℝ) : List ℝ :=
  xs.map fun x => (x - colMean xs) / (colStd xs + eps)

/-- The code's column standardization, with `eps = 1e-8` (line 220). -/
noncomputable def normalizeCol (xs : List ℝ) : List ℝ :=
  normalizeColWith tfEpsilon xs

theorem sum_of_const (xs : List ℝ) (c : ℝ) (h : ∀ x ∈ xs, x = c) :
    xs.sum = (xs.length : ℝ) * c := by
  induction xs with
  | nil => simp
  | cons a t ih =>
      have ha : a = c := h a (List.mem_cons_self a t)
      have ht : ∀ x ∈ t, x = c := fun x hx => h x (List.mem_cons_of_mem a hx)
      rw [List.sum_cons, ih ht, ha, List.length_cons]
      push_cast
      ring

theorem colMean_const (xs : List ℝ) (c : ℝ) (hne : xs ≠ [])
    (h : ∀ x ∈ xs, x = c) : colMean xs = c := by
  have hn : (xs.length : ℝ) ≠ 0 := by
    simpa using fun h0 => hne (List.eq_nil_of_length_eq_zero h0)
  rw [colMean, sum_of_const xs c h, mul_comm, mul_div_assoc, div_self hn, mul_one]

theorem colVariance_const (xs : List ℝ) (c : ℝ) (hne : xs ≠ [])
    (h : ∀ x ∈ xs, x = c) : colVariance xs = 0 := by
  rw [colVariance]
  have hz : (xs.map fun x => (x - colMean xs) ^ 2).sum = 0 := by
    apply List.sum_eq_zero
    intro y hy
    rcases List.mem_map.mp hy with ⟨x, hx, rfl⟩
    rw [h x hx, colMean_const xs c hne h]
    ring
  rw [hz, zero_div]

/-- **C6.** For a constant-valued feature column the standard deviation is 0,
so the divisor is exactly the epsilon floor `1e-8` (in particular strictly
positive — never a division by zero), and every entry of the normalized
column is exactly zero. -/
theorem normalizeConstColumn (seq : List (List ℝ)) (j : ℕ) (c : ℝ)
    (hne : featureColumn seq j ≠ [])
    (hconst : ∀ x ∈ featureColumn seq j, x = c) :
    colStd (featureColumn seq j) + tfEpsilon = tfEpsilon ∧
    0 < colStd (featureColumn seq j) + tfEpsilon ∧
    ∀ y ∈ normalizeCol (featureColumn seq j), y = 0 := by
  have hstd : colStd (featureColumn seq j) = 0 := by
    rw [colStd, colVariance_const _ c hne hconst, Real.sqrt_zero]
  refine ⟨by rw [hstd, zero_add], by rw [hstd, zero_add]; norm_num [tfEpsilon], ?_⟩
  intro y hy
  rcases List.mem_map.mp hy with ⟨x, hx, rfl⟩
  rw [hconst x hx, colMean_const _ c hne hconst, sub_self, zero_div]

theorem normalizeConstColumn_witness :
    colStd (featureColumn [[(5:ℝ)], [5]] 0) + tfEpsilon = tfEpsilon ∧
    0 < colStd (featureColumn [[(5:ℝ)], [5]] 0) + tfEpsilon ∧
    ∀ y ∈ normalizeCol (featureColumn [[(5:ℝ)], [5]] 0), y = 0 :=
  normalizeConstColumn [[(5:ℝ)], [5]] 0 5 (by simp [featureColumn])
    (by
      intro x hx
      have hcol : featureColumn [[(5:ℝ)], [5]] 0 = [5, 5] := rfl
      rw [hcol] at hx
      rcases List.mem_cons.mp hx with h | h
      · exact h
      · simpa using h)

theorem sum_map_mul (a : ℝ) (xs : List ℝ) :
    (xs.map fun x => a * x).sum = a * xs.sum := by
  induction xs with
  | nil => simp
  | cons b t ih => simp [ih, mul_add]

theorem colMean_smul (a : ℝ) (xs : List ℝ) :
    colMean (xs.map fun x => a * x) = a * colMean xs := by
  unfold colMean
  rw [List.length_map, sum_map_mul, mul_div_assoc]

theorem colVariance_smul (a : ℝ) (xs : List ℝ) :
    colVariance (xs.map fun x => a * x) = a ^ 2 * colVariance xs := by
  unfold colVariance
  rw [colMean_smul, List.length_map, List.map_map]
  have hmap : ((fun x => (x - a * colMean xs) ^ 2) ∘ fun x => a * x) =
      fun x => a ^ 2 * (x - colMean xs) ^ 2 := by
    funext x
    simp only [Function.comp]
    ring
  rw [hmap]
  have hsum : (xs.map fun x => a ^ 2 * (x - colMean xs) ^ 2).sum =
      a ^ 2 * (xs.map fun x => (x - colMean xs) ^ 2).sum := by
    have := List.sum_map_mul_left xs (fun x => (x - colMean xs) ^ 2) (a ^ 2)
    simpa using this
  rw [hsum, mul_div_assoc]

theorem colStd_smul (a : ℝ) (ha : 0 ≤ a) (xs : List ℝ) :
    colStd (xs.map fun x => a * x) = a * colStd xs := by
  unfold colStd
  rw [colVariance_smul, Real.sqrt_mul (by positivity), Real.sqrt_sq ha]

theorem normalizeColWith_smul (eps : ℝ) (a : ℝ) (ha : 0 < a) (xs : List ℝ) :
    normalizeColWith eps (xs.map fun x => a * x) =
      normalizeColWith (eps / a) xs := by
  have hne : a ≠ 0 := ne_of_gt ha
  unfold normalizeColWith
  rw [colMean_smul, colStd_smul a ha.le, List.map_map]
  congr 1
  funext x
  simp only [Function.comp]
  rw [show a * x - a * colMean xs = a * (x - colMean xs) by ring]
  rw [show a * colStd xs + eps = a * (colStd xs + eps / a) by
    rw [mul_add, mul_div_cancel₀ _ hne]]
  exact mul_div_mul_left _ _ hne

theorem featureColumn_smul (a : ℝ) (seq : List (List ℝ)) (j : ℕ) :
    featureColumn (seq.map (List.map fun x => a * x)) j =
      (featureColumn seq j).map fun x => a * x := by
  unfold featureColumn
  rw [List.map_map, List.map_map]
  congr 1
  funext row
  simp only [Function.comp]
  by_cases h : j < row.length
  · rw [List.getD_eq_getElem _ _ (by simpa using h), List.getD_eq_getElem _ _ h]
    simp
  · rw [List.getD_eq_default _ _ (by simpa using Nat.le_of_not_lt h),
      List.getD_eq_default _ _ (Nat.le_of_not_lt h)]
    ring

/-- **C7.** Scaling a feature sequence by a positive constant `a` and
re-normalizing yields exactly the normalization of the original column with
the epsilon rescaled to `1e-8 / a` — so the epsilon term in the divisor is
the only source of deviation — and in the epsilon-free model the two
normalizations agree exactly. -/
theorem normalizeScaleInvariant (seq : List (List ℝ)) (j : ℕ) (a : ℝ)
    (ha : 0 < a) (hstd : colStd (featureColumn seq j) ≠ 0) :
    normalizeCol (featureColumn (seq.map (List.map fun x => a * x)) j) =
      normalizeColWith (tfEpsilon / a) (featureColumn seq j) ∧
    normalizeColWith 0 (featureColumn (seq.map (List.map fun x => a * x)) j) =
      normalizeColWith 0 (featureColumn seq j) := by
  constructor
  · rw [normalizeCol, featureColumn_smul, normalizeColWith_smul tfEpsilon a ha]
  · rw [featureColumn_smul, normalizeColWith_smul 0 a ha, zero_div]

theorem normalizeScaleInvariant_witness :
    normalizeCol (featureColumn ([[(0:ℝ)], [2]].map (List.map fun x => 2 * x)) 0) =
      normalizeColWith (tfEpsilon / 2) (featureColumn [[(0:ℝ)], [2]] 0) ∧
    normalizeColWith 0 (featureColumn ([[(0:ℝ)], [2]].map (List.map fun x => 2 * x)) 0) =
      normalizeColWith 0 (featureColumn [[(0:ℝ)], [2]] 0) :=
  normalizeScaleInvariant [[(0:ℝ)], [2]] 0 2 (by norm_num)
    (by
      have hcol : featureColumn [[(0:ℝ)], [2]] 0 = [0, 2] := rfl
      rw [hcol]
      have hm : colMean [(0:ℝ), 2] = 1 := by
        rw [colMean]
        norm_num
      have hv : colVariance [(0:ℝ), 2] = 1 := by
        rw [colVariance, hm]
        norm_num
      rw [colStd, hv, Real.sqrt_one]
      exact one_ne_zero)

/- ### WAV container writing (recording module, float32ToWav) -/

/-- Little-endian byte encoding of a 32-bit unsigned value (`setUint32(.., true)`). -/
def u32le (v : ℕ) : List ℕ :=
  [v % 256, v / 256 % 256, v / 2 ^ 16 % 256, v / 2 ^ 24 % 256]

/-- Little-endian byte encoding of a 16-bit unsigned value (`setUint16(.., true)`). -/
def u16le (v : ℕ) : List ℕ := [v % 256, v / 256 % 256]

/-- Little-endian byte encoding of a signed 16-bit value (`setInt16(.., true)`):
two's complement, i.e. the value modulo `2^16`. -/
def i16le (v : ℤ) : List ℕ := u16le (v % 65536).toNat

/-- JavaScript ToInteger conversion applied by `setInt16`: truncation toward
zero. -/
def jsTrunc (q : ℚ) : ℤ := if 0 ≤ q then ⌊q⌋ else ⌈q⌉

/-- Sample quantization of `float32ToWav`:
`s = Math.max(-1, Math.min(1, samples[i]))` followed by
`s < 0 ? s * 0x8000 : s * 0x7FFF`. -/
def quantize (sample : ℚ) : ℤ :=
  let s := max (-1) (min 1 sample)
  if s < 0 then jsTrunc (s * 32768) else jsTrunc (s * 32767)

/-- The 44 header bytes written by `float32ToWav` for `n` samples, in offset
order: RIFF chunk, format subchunk (PCM, mono, 16-bit, the given sample
rate, byte rate `sampleRate * 2`, block align 2), data subchunk header. -/
def wavHeader (n sr : ℕ) : List ℕ :=
  [82, 73, 70, 70] ++ u32le (36 + n * 2) ++
    [87, 65, 86, 69] ++ [102, 109, 116, 32] ++
    u32le 16 ++ u16le 1 ++ u16le 1 ++ u32le sr ++ u32le (sr * 2) ++
    u16le 2 ++ u16le 16 ++
    [100, 97, 116, 97] ++ u32le (n * 2)

/-- Embedding of `float32ToWav`: the header followed by each sample clamped,
scaled, truncated and written as little-endian 16-bit PCM, in order. -/
def float32ToWav (samples : List ℚ) (sr : ℕ) : List ℕ :=
  wavHeader samples.length sr ++ (samples.map fun s => i16le (quantize s)).flatten

theorem wavHeader_length (n sr : ℕ) : (wavHeader n sr).length = 44 := by
  simp [wavHeader, u32le, u16le]

theorem quantize_bounds (sample : ℚ) :
    -32768 ≤ quantize sample ∧ quantize sample ≤ 32767 := by
  simp only [quantize, jsTrunc]
  have h1 : (-1 : ℚ) ≤ max (-1) (min 1 sample) := le_max_left _ _
  have h2 : max (-1) (min 1 sample) ≤ 1 := by
    apply max_le
    · norm_num
    · exact le_trans (min_le_left _ _) (le_refl _)
  constructor
  · split
    · split
      · have h3 : (0 : ℚ) ≤ max (-1) (min 1 sample) * 32768 := by assumption
        have h0 : (0 : ℤ) ≤ ⌊max (-1) (min 1 sample) * 32768⌋ := Int.floor_nonneg.mpr h3
        omega
      · have h3 : (-32768 : ℚ) ≤ max (-1) (min 1 sample) * 32768 := by nlinarith
        calc (-32768 : ℤ) = ⌈((-32768 : ℤ) : ℚ)⌉ := (Int.ceil_intCast _).symm
          _ ≤ ⌈max (-1) (min 1 sample) * 32768⌉ := Int.ceil_le_ceil (by push_cast; linarith)
    · split
      · have h3 : (0 : ℚ) ≤ max (-1) (min 1 sample) * 32767 := by assumption
        have h0 : (0 : ℤ) ≤ ⌊max (-1) (min 1 sample) * 32767⌋ := Int.floor_nonneg.mpr h3
        omega
      · have h3 : ¬(max (-1) (min 1 sample) < 0) := by assumption
        have h4 : ¬(0 ≤ max (-1) (min 1 sample) * 32767) := by assumption
        nlinarith [not_lt.mp h3]
  · split
    · split
      · have h3 : max (-1) (min 1 sample) < 0 := by assumption
        have h4 : (0:ℚ) ≤ max (-1) (min 1 sample) * 32768 := by assumption
        nlinarith
      · have h3 : max (-1) (min 1 sample) * 32768 ≤ 0 := by
          have : max (-1) (min 1 sample) < 0 := by assumption
          nlinarith
        have h0 : ⌈max (-1) (min 1 sample) * 32768⌉ ≤ 0 :=
          Int.ceil_le.mpr (by exact_mod_cast h3)
        omega
    · split
      · have h3 : max (-1) (min 1 sample) * 32767 ≤ 32767 := by nlinarith
        calc ⌊max (-1) (min 1 sample) * 32767⌋ ≤ ⌊(32767 : ℚ)⌋ := Int.floor_le_floor h3
          _ = 32767 := by norm_num
      · have h3 : ¬(max (-1) (min 1 sample) < 0) := by assumption
        have h4 : ¬(0 ≤ max (-1) (min 1 sample) * 32767) := by assumption
        nlinarith [not_lt.mp h3]

theorem quantize_pos_one : quantize 1 = 32767 := by
  simp only [quantize, jsTrunc]
  have hmin : min (1:ℚ) 1 = 1 := min_self 1
  have hmax : max (-1:ℚ) 1 = 1 := by norm_num
  rw [hmin, hmax]
  norm_num

theorem quantize_neg_one : quantize (-1) = -32768 := by
  simp only [quantize, jsTrunc]
  have hmin : min (1:ℚ) (-1) = -1 := by norm_num
  have hmax : max (-1:ℚ) (-1) = -1 := max_self (-1)
  rw [hmin, hmax]
  norm_num
  rw [show ((-32768 : ℚ)) = ((-32768 : ℤ) : ℚ) by norm_num, Int.ceil_intCast]

theorem quantize_pos_two : quantize 2 = 32767 := by
  simp only [quantize, jsTrunc]
  have hmin : min (1:ℚ) 2 = 1 := by norm_num
  have hmax : max (-1:ℚ) 1 = 1 := by norm_num
  rw [hmin, hmax]
  norm_num

theorem quantize_neg_two : quantize (-2) = -32768 := by
  simp only [quantize, jsTrunc]
  have hmin : min (1:ℚ) (-2) = -2 := by norm_num
  have hmax : max (-1:ℚ) (-2) = -1 := by norm_num
  rw [hmin, hmax]
  norm_num
  rw [show ((-32768 : ℚ)) = ((-32768 : ℤ) : ℚ) by norm_num, Int.ceil_intCast]

/-- **C8.** `float32ToWav` produces `44 + 2n` bytes: the 44-byte RIFF/WAVE
header (PCM, mono, 16-bit, little-endian, the given sample rate) followed by
the samples in order, each clamped to `[-1, 1]` and scaled by 32767 when
non-negative and by 32768 when negative; the quantized values always fit a
signed 16-bit integer, with out-of-range samples clamping to -32768/32767. -/
theorem float32ToWav_spec (samples : List ℚ) (sr : ℕ) :
    (float32ToWav samples sr).length = 44 + 2 * samples.length ∧
    (wavHeader samples.length sr).length = 44 ∧
    (float32ToWav samples sr).take 44 = wavHeader samples.length sr ∧
    (float32ToWav samples sr).drop 44 =
      (samples.map fun s => i16le (quantize s)).flatten ∧
    (∀ s : ℚ, -32768 ≤ quantize s ∧ quantize s ≤ 32767) ∧
    quantize 1 = 32767 ∧ quantize (-1) = -32768 ∧
    quantize 2 = 32767 ∧ quantize (-2) = -32768 := by
  have hjoin : ((samples.map fun s => i16le (quantize s)).flatten).length =
      2 * samples.length := by
    induction samples with
    | nil => simp
    | cons b t ih =>
        rw [List.map_cons, List.flatten_cons, List.length_append, ih]
        have hb : (i16le (quantize b)).length = 2 := rfl
        rw [hb, List.length_cons]
        ring
  have hhead := wavHeader_length samples.length sr
  refine ⟨?_, hhead, ?_, ?_, quantize_bounds, quantize_pos_one, quantize_neg_one,
    quantize_pos_two, quantize_neg_two⟩
  · rw [float32ToWav, List.length_append, hhead, hjoin]
  · rw [float32ToWav]
    have := List.take_left (wavHeader samples.length sr)
      ((samples.map fun s => i16le (quantize s)).flatten)
    rwa [hhead] at this
  · rw [float32ToWav]
    have := List.drop_left (wavHeader samples.length sr)
      ((samples.map fun s => i16le (quantize s)).flatten)
    rwa [hhead] at this

/- ### Model loader (loadModels) -/

/-- Default language labels used when the labels fetch throws. -/
def defaultLabels : List String := ["Español", "Inglés", "Francés", "Alemán"]

/-- The spoofing configuration record. -/
structure SpoofConfig where
  threshold : ℚ
  labels : List String
deriving DecidableEq

/-- Default spoofing config used when the config fetch throws. -/
def defaultSpoofingConfig : SpoofConfig :=
  { threshold := 1 / 2, labels := ["human", "spoof"] }

/-- The module-level mutable state of the model loader: `languageModel`,
`accentModel`, `spoofingModel`, `modelsLoaded`, `languageLabels`,
`spoofingConfig`. Model handles are opaque and represented by `ℕ`. -/
structure ModelState where
  languageModel : Option ℕ
  accentModel : Option ℕ
  spoofingModel : Option ℕ
  modelsLoaded : Bool
  languageLabels : Option (List String)
  spoofingConfig : Option SpoofConfig
deriving DecidableEq

/-- The initial module state: all model references and metadata null,
`modelsLoaded = false`. -/
def initialState : ModelState :=
  { languageModel := none, accentModel := none, spoofingModel := none,
    modelsLoaded := false, languageLabels := none, spoofingConfig := none }

/-- Outcome of a `fetch` wrapped in try/catch: a successful response with a
parsed body, a non-ok response (the body is ignored and the state is left
unchanged), or a thrown error (the catch installs defaults). -/
inductive FetchOutcome (α : Type) where
  | ok (v : α)
  | notOk
  | thrown
deriving DecidableEq

/-- `loadLabels`: sets `languageLabels` on a successful fetch, leaves it
unchanged on a non-ok response, installs `defaultLabels` when the fetch
throws. -/
def applyLabelsFetch (st : ModelState) (o : FetchOutcome (List String)) : ModelState :=
  match o with
  | .ok v => { st with languageLabels := some v }
  | .notOk => st
  | .thrown => { st with languageLabels := some defaultLabels }

/-- `loadSpoofingConfig`: same shape as `loadLabels` for `spoofingConfig`. -/
def applyConfigFetch (st : ModelState) (o : FetchOutcome SpoofConfig) : ModelState :=
  match o with
  | .ok v => { st with spoofingConfig := some v }
  | .notOk => st
  | .thrown => { st with spoofingConfig := some defaultSpoofingConfig }

/-- The environment of one `loadModels` call: the outcome of each external
fetch/load, in program order. -/
structure LoadEnv where
  labels : FetchOutcome (List String)
  config : FetchOutcome SpoofConfig
  language : Except Unit ℕ
  accent : Except Unit ℕ
  spoofing : Except Unit ℕ

/-- Embedding of `loadModels`: early return when already loaded; otherwise
load labels and spoofing config, then the required language model (a failure
rethrows and aborts, leaving the state as mutated so far), then the optional
accent and spoofing models (a failure sets the reference to null and
continues), and finally set `modelsLoaded = true`. -/
def loadModels (st : ModelState) (env : LoadEnv) : ModelState × Except Unit Unit :=
  if st.modelsLoaded then (st, Except.ok ())
  else
    let st1 := applyLabelsFetch st env.labels
    let st2 := applyConfigFetch st1 env.config
    match env.language with
    | .error _ => (st2, Except.error ())
    | .ok m =>
      let st3 := { st2 with languageModel := some m }
      let st4 := match env.accent with
        | .ok m2 => { st3 with accentModel := some m2 }
        | .error _ => { st3 with accentModel := none }
      let st5 := match env.spoofing with
        | .ok m3 => { st4 with spoofingModel := some m3 }
        | .error _ => { st4 with spoofingModel := none }
      ({ st5 with modelsLoaded := true }, Except.ok ())

/-- A run in which every external load fails; labels and config fetches
throw, so the catch handlers install the defaults. -/
def envRequiredFail : LoadEnv :=
  { labels := .thrown, config := .thrown, language := .error (),
    accent := .error (), spoofing := .error () }

/-- A run in which the required language model loads (handle 7) but both
optional models fail and both metadata fetches return non-ok. -/
def envOptionalFail : LoadEnv :=
  { labels := .notOk, config := .notOk, language := .ok 7,
    accent := .error (), spoofing := .error () }

/-- **C9 counterexample.** When the required language-model load fails, the
error is propagated and `modelsLoaded` stays false, but partial state IS
retained: the labels and spoofing-config defaults installed before the
failure remain in the module state (`languageLabels ≠ null`), contradicting
"no partial state is retained". -/
theorem loadModels_counterexample :
    (loadModels initialState envRequiredFail).2 = Except.error () ∧
    (loadModels initialState envRequiredFail).1.modelsLoaded = false ∧
    (loadModels initialState envRequiredFail).1.languageLabels = some defaultLabels ∧
    (loadModels initialState envRequiredFail).1.spoofingConfig = some defaultSpoofingConfig ∧
    (loadModels initialState envRequiredFail).1.languageLabels ≠ none :=
  ⟨rfl, rfl, rfl, rfl, by decide⟩

/-- **C9 (amended).** A failed required language-model load propagates a
fatal error: `modelsLoaded` stays false and no model reference is retained
(language, accent and spoofing references are all null) — but the metadata
written before the failure (`languageLabels`, `spoofingConfig`) is retained
exactly as the label/config fetches left it. A missing optional accent or
spoofing model leaves its reference null while the load completes
successfully with `modelsLoaded = true`. -/
theorem loadModels_spec (env : LoadEnv) :
    (env.language = Except.error () →
      (loadModels initialState env).2 = Except.error () ∧
      (loadModels initialState env).1.modelsLoaded = false ∧
      (loadModels initialState env).1.languageModel = none ∧
      (loadModels initialState env).1.accentModel = none ∧
      (loadModels initialState env).1.spoofingModel = none ∧
      (loadModels initialState env).1.languageLabels =
        (applyLabelsFetch initialState env.labels).languageLabels ∧
      (loadModels initialState env).1.spoofingConfig =
        (applyConfigFetch (applyLabelsFetch initialState env.labels)
          env.config).spoofingConfig) ∧
    (∀ m, env.language = Except.ok m →
      (loadModels initialState env).2 = Except.ok () ∧
      (loadModels initialState env).1.modelsLoaded = true ∧
      (loadModels initialState env).1.languageModel = some m ∧
      (env.accent = Except.error () →
        (loadModels initialState env).1.accentModel = none) ∧
      (env.spoofing = Except.error () →
        (loadModels initialState env).1.spoofingModel = none)) := by
  constructor
  · intro h
    cases hl : env.labels <;> cases hc : env.config <;>
      simp [loadModels, initialState, applyLabelsFetch, applyConfigFetch, h, hl, hc]
  · intro m hm
    cases hl : env.labels <;> cases hc : env.config <;>
      cases ha : env.accent <;> cases hs : env.spoofing <;>
        simp [loadModels, initialState, applyLabelsFetch, applyConfigFetch,
          hm, hl, hc, ha, hs]

theorem loadModels_spec_witness :
    (loadModels initialState envOptionalFail).2 = Except.ok () ∧
    (loadModels initialState envOptionalFail).1.modelsLoaded = true ∧
    (loadModels initialState envOptionalFail).1.languageModel = some 7 ∧
    (loadModels initialState envOptionalFail).1.accentModel = none ∧
    (loadModels initialState envOptionalFail).1.spoofingModel = none := by
  have h := (loadModels_spec envOptionalFail).2 7 rfl
  exact ⟨h.1, h.2.1, h.2.2.1, h.2.2.2.1 rfl, h.2.2.2.2 rfl⟩
